import Mathlib

/-!
Verification of the phrase-extraction and highlighting pipeline of
Eeman1113/High_Life (`main.py`).

Shallow embedding conventions:
* a Python `str` is modelled as `List Char` (a sequence of Unicode characters,
  so `len` is `List.length` and `+` is `List.append`);
* `text.split("\n\n")` and `content.split("\n")` are modelled by the
  executable functions `splitParas` and `splitLines` below, which implement
  Python's left-to-right, non-overlapping split semantics for these two fixed
  separators;
* `str.strip()` is modelled by `pyStrip` (drop whitespace characters from both
  ends; `Char.isWhitespace` covers the ASCII whitespace that occurs in the
  program's data);
* wall-clock sleeping is modelled by recording the exact sequence of wait
  durations, as exact rationals (the decimal literals involved are exactly
  representable, so no floating-point rounding is observable in the claims);
* the external HTTP service is modelled by a function from attempt number to
  the response received on that attempt;
* a PDF document open/save round trip through the PDF library is modelled as
  the identity on the document structure (pages with a text-layout search
  index and a list of highlight marks), per the interface contract of the
  design document.
-/

/-- The blank-line separator `"\n\n"` used between pages and paragraphs. -/
def nl2 : List Char := ['\n', '\n']

/-- Model of Python's `text.split("\n\n")` (line 24 of `main.py`):
left-to-right scan, splitting at each non-overlapping occurrence of the
two-character separator. -/
def splitParas : List Char → List (List Char)
  | [] => [[]]
  | [c] => [[c]]
  | c :: c' :: rest =>
    if c = '\n' ∧ c' = '\n' then
      [] :: splitParas rest
    else
      match splitParas (c' :: rest) with
      | [] => [[c]]
      | h :: t => (c :: h) :: t

/-- Model of Python's `content.split("\n")` (line 77 of `main.py`). -/
def splitLines : List Char → List (List Char)
  | [] => [[]]
  | c :: rest =>
    if c = '\n' then
      [] :: splitLines rest
    else
      match splitLines rest with
      | [] => [[c]]
      | h :: t => (c :: h) :: t

/-- Join a list of texts with a separator between consecutive elements
(Python's `sep.join`); used to state the reconstruction laws. -/
def joinSep (sep : List Char) : List (List Char) → List Char
  | [] => []
  | [x] => x
  | x :: y :: t => x ++ sep ++ joinSep sep (y :: t)

/-- Model of Python's `str.strip()` (lines 77 and 118 of `main.py`). -/
def pyStrip (l : List Char) : List Char :=
  ((l.dropWhile Char.isWhitespace).reverse.dropWhile Char.isWhitespace).reverse

theorem joinSep_nil (sep : List Char) : joinSep sep [] = [] := rfl

theorem joinSep_single (sep x : List Char) : joinSep sep [x] = x := rfl

theorem joinSep_cons_cons (sep x y : List Char) (t : List (List Char)) :
    joinSep sep (x :: y :: t) = x ++ sep ++ joinSep sep (y :: t) := rfl

theorem splitParas_ne_nil : ∀ l : List Char, splitParas l ≠ []
  | [] => by simp [splitParas]
  | [c] => by simp [splitParas]
  | c :: c' :: rest => by
    rw [splitParas]
    split
    · simp
    · have h2 := splitParas_ne_nil (c' :: rest)
      cases h : splitParas (c' :: rest) with
      | nil => exact absurd h h2
      | cons x t => simp [h]

theorem splitLines_ne_nil : ∀ l : List Char, splitLines l ≠ []
  | [] => by simp [splitLines]
  | c :: rest => by
    rw [splitLines]
    split
    · simp
    · have h2 := splitLines_ne_nil rest
      cases h : splitLines rest with
      | nil => exact absurd h h2
      | cons x t => simp [h]

theorem joinSep_cons_of_ne_nil (sep x : List Char) (t : List (List Char))
    (h : t ≠ []) : joinSep sep (x :: t) = x ++ sep ++ joinSep sep t := by
  cases t with
  | nil => exact absurd rfl h
  | cons y t' => rfl

/-- Splitting on the blank-line separator and re-joining with it reconstructs
the text: the split loses no characters. -/
theorem joinSep_splitParas : ∀ l : List Char, joinSep nl2 (splitParas l) = l
  | [] => rfl
  | [c] => rfl
  | c :: c' :: rest => by
    rw [splitParas]
    split
    · next hcc =>
      obtain ⟨hc, hc'⟩ := hcc
      subst hc; subst hc'
      rw [joinSep_cons_of_ne_nil _ _ _ (splitParas_ne_nil rest),
        joinSep_splitParas rest]
      rfl
    · have hne := splitParas_ne_nil (c' :: rest)
      have hj := joinSep_splitParas (c' :: rest)
      cases h : splitParas (c' :: rest) with
      | nil => exact absurd h hne
      | cons x t =>
        rw [h] at hj
        cases t with
        | nil =>
          simp only [joinSep_single] at hj
          simp [joinSep_single, hj]
        | cons y t' =>
          rw [joinSep_cons_cons] at hj
          rw [joinSep_cons_cons, List.cons_append, List.cons_append, hj]

/-- Splitting on the newline separator and re-joining reconstructs the text. -/
theorem joinSep_splitLines : ∀ l : List Char, joinSep ['\n'] (splitLines l) = l
  | [] => rfl
  | c :: rest => by
    rw [splitLines]
    split
    · next hc =>
      subst hc
      rw [joinSep_cons_of_ne_nil _ _ _ (splitLines_ne_nil rest),
        joinSep_splitLines rest]
      rfl
    · have hne := splitLines_ne_nil rest
      have hj := joinSep_splitLines rest
      cases h : splitLines rest with
      | nil => exact absurd h hne
      | cons x t =>
        rw [h] at hj
        cases t with
        | nil =>
          simp only [joinSep_single] at hj
          simp [joinSep_single, hj]
        | cons y t' =>
          rw [joinSep_cons_cons] at hj
          rw [joinSep_cons_cons]
          simp only [List.cons_append]
          exact congrArg (c :: ·) hj

theorem joinSep_append_single (sep : List Char) (l : List (List Char))
    (x : List Char) (h : l ≠ []) :
    joinSep sep (l ++ [x]) = joinSep sep l ++ sep ++ x := by
  induction l with
  | nil => exact absurd rfl h
  | cons a t ih =>
    cases t with
    | nil => rfl
    | cons b t' =>
      rw [List.cons_append, joinSep_cons_of_ne_nil sep a _ (by simp),
        ih (by simp), joinSep_cons_cons]
      simp [List.append_assoc]

/-- The characters of the joined text outnumber the characters of the parts:
the separator only adds. -/
theorem sum_length_le_joinSep (sep : List Char) :
    ∀ l : List (List Char), (l.map List.length).sum ≤ (joinSep sep l).length
  | [] => by simp [joinSep]
  | [x] => by simp [joinSep]
  | x :: y :: t => by
    have ih := sum_length_le_joinSep sep (y :: t)
    rw [joinSep_cons_cons]
    simp only [List.map_cons, List.sum_cons, List.length_append] at ih ⊢
    omega

/-- Peeling off the head of a joined list: the tail contributes a
separator-prefixed block per element. -/
def glueTail (sep : List Char) (ps : List (List Char)) : List Char :=
  (ps.map (fun p => sep ++ p)).flatten

theorem glueTail_nil (sep : List Char) : glueTail sep [] = [] := rfl

theorem glueTail_cons (sep p : List Char) (ps : List (List Char)) :
    glueTail sep (p :: ps) = sep ++ p ++ glueTail sep ps := by
  simp [glueTail, List.append_assoc]

theorem joinSep_eq_head_glue (sep x : List Char) :
    ∀ xs : List (List Char), joinSep sep (x :: xs) = x ++ glueTail sep xs
  | [] => by simp [joinSep_single, glueTail]
  | y :: t => by
    rw [joinSep_cons_cons, joinSep_eq_head_glue sep y t, glueTail_cons]
    simp [List.append_assoc]

/-- One iteration of the accumulation loop of `chunk_text`
(lines 28-36 of `main.py`).  The state is the pair
`(chunks, current_chunk)`; Python's truthiness test `and current_chunk`
is the test `current_chunk ≠ ""`. -/
def chunkStep (max_chunk_size : Nat) (acc : List (List Char) × List Char)
    (paragraph : List Char) : List (List Char) × List Char :=
  if acc.2.length + paragraph.length > max_chunk_size ∧ acc.2 ≠ [] then
    (acc.1 ++ [acc.2], paragraph)
  else if acc.2 ≠ [] then
    (acc.1, acc.2 ++ nl2 ++ paragraph)
  else
    (acc.1, paragraph)

/-- The trailing flush of `chunk_text` (lines 38-39 of `main.py`). -/
def finalizeChunks (r : List (List Char) × List Char) : List (List Char) :=
  if r.2 ≠ [] then r.1 ++ [r.2] else r.1

/-- Embedding of `chunk_text` (lines 22-41 of `main.py`): split the text on
blank lines and accumulate consecutive paragraphs into chunks. -/
def chunk_text (text : List Char) (max_chunk_size : Nat) : List (List Char) :=
  finalizeChunks ((splitParas text).foldl (chunkStep max_chunk_size) ([], []))

/-- The same accumulation loop, with the current chunk kept as the list of
the paragraphs it was built from instead of the already-joined string; used
to state which paragraphs each emitted chunk consists of. -/
def chunkParasStep (max_chunk_size : Nat)
    (acc : List (List (List Char)) × List (List Char)) (paragraph : List Char) :
    List (List (List Char)) × List (List Char) :=
  if (joinSep nl2 acc.2).length + paragraph.length > max_chunk_size ∧
      joinSep nl2 acc.2 ≠ [] then
    (acc.1 ++ [acc.2], [paragraph])
  else if joinSep nl2 acc.2 ≠ [] then
    (acc.1, acc.2 ++ [paragraph])
  else
    (acc.1, [paragraph])

/-- The trailing flush at the paragraph-list level. -/
def finalizeParas (r : List (List (List Char)) × List (List Char)) :
    List (List (List Char)) :=
  if joinSep nl2 r.2 ≠ [] then r.1 ++ [r.2] else r.1

/-- Paragraph-list view of the chunker. -/
def chunkParas (paragraphs : List (List Char)) (max_chunk_size : Nat) :
    List (List (List Char)) :=
  finalizeParas (paragraphs.foldl (chunkParasStep max_chunk_size) ([], []))

/-- The state abstraction from the paragraph-list view back to the string
view of the accumulation loop. -/
def joinState (s : List (List (List Char)) × List (List Char)) :
    List (List Char) × List Char :=
  (s.1.map (joinSep nl2), joinSep nl2 s.2)

theorem chunkStep_joinState (M : Nat)
    (s : List (List (List Char)) × List (List Char)) (p : List Char) :
    chunkStep M (joinState s) p = joinState (chunkParasStep M s p) := by
  obtain ⟨chunks, cur⟩ := s
  simp only [chunkStep, chunkParasStep, joinState]
  split
  · simp [joinSep_single]
  · split
    · next h2 =>
      have hcur : cur ≠ [] := by
        intro hc
        exact h2 (by simp [hc, joinSep_nil])
      simp [joinSep_append_single nl2 cur p hcur]
    · simp [joinSep_single]

theorem foldl_chunkStep_joinState (M : Nat) (ps : List (List Char)) :
    ∀ s : List (List (List Char)) × List (List Char),
      ps.foldl (chunkStep M) (joinState s)
        = joinState (ps.foldl (chunkParasStep M) s) := by
  induction ps with
  | nil => intro s; rfl
  | cons p ps ih =>
    intro s
    rw [List.foldl_cons, List.foldl_cons, chunkStep_joinState, ih]

/-- Every chunk emitted by `chunk_text` is the blank-line join of the
corresponding paragraph list computed by `chunkParas`. -/
theorem chunk_text_eq_map_joinSep (text : List Char) (M : Nat) :
    chunk_text text M
      = (chunkParas (splitParas text) M).map (joinSep nl2) := by
  have h0 : (([], []) : List (List Char) × List Char)
      = joinState (([], []) : List (List (List Char)) × List (List Char)) := rfl
  rw [chunk_text, h0, foldl_chunkStep_joinState, chunkParas]
  set r := (splitParas text).foldl (chunkParasStep M) ([], []) with hr
  simp only [finalizeChunks, finalizeParas, joinState]
  split
  · simp
  · simp

theorem joinSep_append_single_append (sep : List Char)
    (l : List (List Char)) (a b : List Char) :
    joinSep sep (l ++ [a ++ sep ++ b]) = joinSep sep (l ++ [a]) ++ sep ++ b := by
  cases l with
  | nil => simp [joinSep_single]
  | cons x t =>
    rw [joinSep_append_single sep (x :: t) _ (by simp),
      joinSep_append_single sep (x :: t) _ (by simp)]
    simp [List.append_assoc]

/-- As long as every remaining paragraph is non-empty and the accumulator is
non-empty, the loop of `chunk_text` preserves the joined text: the final
chunk list joins to the already-emitted part plus the remaining paragraphs. -/
theorem chunkFold_join (M : Nat) :
    ∀ ps : List (List Char), (∀ p ∈ ps, p ≠ []) →
      ∀ (chunks : List (List Char)) (cur : List Char), cur ≠ [] →
        joinSep nl2 (finalizeChunks (ps.foldl (chunkStep M) (chunks, cur)))
          = joinSep nl2 (chunks ++ [cur]) ++ glueTail nl2 ps
  | [], _, chunks, cur, hcur => by
    simp [finalizeChunks, hcur, glueTail_nil]
  | p :: ps, hps, chunks, cur, hcur => by
    have hp : p ≠ [] := hps p (List.mem_cons_self p ps)
    have hps' : ∀ q ∈ ps, q ≠ [] := fun q hq => hps q (List.mem_cons_of_mem p hq)
    rw [List.foldl_cons]
    rw [show chunkStep M (chunks, cur) p
        = if cur.length + p.length > M ∧ cur ≠ [] then (chunks ++ [cur], p)
          else if cur ≠ [] then (chunks, cur ++ nl2 ++ p) else (chunks, p)
      from rfl]
    split
    · rw [chunkFold_join M ps hps' (chunks ++ [cur]) p hp,
        joinSep_append_single nl2 (chunks ++ [cur]) p (by simp), glueTail_cons]
      simp [List.append_assoc]
    · rw [chunkFold_join M ps hps' chunks (cur ++ nl2 ++ p) (by simp [nl2]),
        joinSep_append_single_append, glueTail_cons]
      simp [List.append_assoc]

/-- C1 (amended): for texts none of whose paragraphs is empty (no leading,
trailing-empty or doubled blank-line separator), joining the chunks emitted
by `chunk_text` with the blank-line separator reconstructs the input text
exactly, for every maximum chunk size. -/
theorem chunker_roundtrip (text : List Char) (M : Nat)
    (h : ∀ p ∈ splitParas text, p ≠ []) :
    joinSep nl2 (chunk_text text M) = text := by
  have hne := splitParas_ne_nil text
  cases hsp : splitParas text with
  | nil => exact absurd hsp hne
  | cons p0 rest =>
    have hp0 : p0 ≠ [] := h p0 (by rw [hsp]; exact List.mem_cons_self p0 rest)
    have hrest : ∀ q ∈ rest, q ≠ [] := fun q hq =>
      h q (by rw [hsp]; exact List.mem_cons_of_mem p0 hq)
    have hstep : chunkStep M ([], []) p0 = ([], p0) := by
      simp [chunkStep]
    rw [chunk_text, hsp, List.foldl_cons, hstep,
      chunkFold_join M rest hrest [] p0 hp0, List.nil_append, joinSep_single,
      ← joinSep_eq_head_glue, ← hsp, joinSep_splitParas]

/-- C1 counterexample: for the text `"\n\nA"` the chunker drops the leading
empty paragraph, so re-joining its output does not reconstruct the input. -/
theorem chunker_roundtrip_counterexample :
    chunk_text (String.toList "\n\nA") 3000 = [['A']] ∧
    joinSep nl2 (chunk_text (String.toList "\n\nA") 3000)
      ≠ String.toList "\n\nA" := by
  decide

/-- C1 witness: a concrete two-paragraph text round-trips. -/
theorem chunker_roundtrip_witness :
    (∀ p ∈ splitParas (String.toList "Alpha point one.\n\nBeta point two."),
      p ≠ []) ∧
    joinSep nl2
        (chunk_text (String.toList "Alpha point one.\n\nBeta point two.") 3000)
      = String.toList "Alpha point one.\n\nBeta point two." :=
  ⟨by decide, chunker_roundtrip _ 3000 (by decide)⟩

/-- A chunk is only ever appended to the emitted list when it is non-empty
(the guard `and current_chunk` on line 29 and the guard on line 38). -/
theorem chunkFold_ne_nil (M : Nat) :
    ∀ (ps : List (List Char)) (chunks : List (List Char)) (cur : List Char),
      (∀ c ∈ chunks, c ≠ []) →
      ∀ c ∈ finalizeChunks (ps.foldl (chunkStep M) (chunks, cur)), c ≠ []
  | [], chunks, cur, hchunks => by
    simp only [List.foldl_nil, finalizeChunks]
    split
    · next hcur =>
      intro c hc
      rcases List.mem_append.mp hc with h | h
      · exact hchunks c h
      · rw [List.mem_singleton.mp h]; exact hcur
    · exact hchunks
  | p :: ps, chunks, cur, hchunks => by
    rw [List.foldl_cons]
    rw [show chunkStep M (chunks, cur) p
        = if cur.length + p.length > M ∧ cur ≠ [] then (chunks ++ [cur], p)
          else if cur ≠ [] then (chunks, cur ++ nl2 ++ p) else (chunks, p)
      from rfl]
    split
    · next h =>
      refine chunkFold_ne_nil M ps (chunks ++ [cur]) p (fun c hc => ?_)
      rcases List.mem_append.mp hc with h' | h'
      · exact hchunks c h'
      · rw [List.mem_singleton.mp h']; exact h.2
    · split
      · exact chunkFold_ne_nil M ps chunks (cur ++ nl2 ++ p) hchunks
      · exact chunkFold_ne_nil M ps chunks p hchunks

/-- C10: the chunker never emits an empty chunk, for any input text and any
maximum chunk size. -/
theorem chunk_text_ne_nil (text : List Char) (M : Nat) :
    ∀ c ∈ chunk_text text M, c ≠ [] :=
  chunkFold_ne_nil M (splitParas text) [] [] (by simp)

/-- C10 witness: a concrete text produces a concrete non-empty chunk. -/
theorem chunk_text_ne_nil_witness :
    String.toList "AB" ∈ chunk_text (String.toList "AB") 3000 ∧
    String.toList "AB" ≠ [] :=
  ⟨by decide, chunk_text_ne_nil (String.toList "AB") 3000 _ (by decide)⟩

/-- C2 invariant: every paragraph group accumulated by the chunker either is
a single paragraph or its paragraphs' total character count stays within the
configured maximum (the loop guard on line 29 of `main.py` compares the
length of the joined accumulator before the separator is inserted). -/
theorem chunkParasFold_bound (M : Nat) :
    ∀ (ps : List (List Char)) (chunks : List (List (List Char)))
      (cur : List (List Char)),
      (∀ ch ∈ chunks, ch.length = 1 ∨ (ch.map List.length).sum ≤ M) →
      (cur = [] ∨ cur.length = 1 ∨ (cur.map List.length).sum ≤ M) →
      ∀ ch ∈ finalizeParas (ps.foldl (chunkParasStep M) (chunks, cur)),
        ch.length = 1 ∨ (ch.map List.length).sum ≤ M
  | [], chunks, cur, hchunks, hcur => by
    simp only [List.foldl_nil, finalizeParas]
    split
    · next hj =>
      intro ch hch
      rcases List.mem_append.mp hch with h | h
      · exact hchunks ch h
      · rw [List.mem_singleton.mp h]
        rcases hcur with h' | h'
        · exact absurd (by rw [h']; rfl) hj
        · exact h'
    · exact hchunks
  | p :: ps, chunks, cur, hchunks, hcur => by
    rw [List.foldl_cons]
    rw [show chunkParasStep M (chunks, cur) p
        = if (joinSep nl2 cur).length + p.length > M ∧ joinSep nl2 cur ≠ []
          then (chunks ++ [cur], [p])
          else if joinSep nl2 cur ≠ [] then (chunks, cur ++ [p])
          else (chunks, [p])
      from rfl]
    split
    · next h =>
      refine chunkParasFold_bound M ps (chunks ++ [cur]) [p] (fun ch hch => ?_)
        (Or.inr (Or.inl rfl))
      rcases List.mem_append.mp hch with h' | h'
      · exact hchunks ch h'
      · rw [List.mem_singleton.mp h']
        rcases hcur with h'' | h''
        · exact absurd (by rw [h'']; rfl) h.2
        · exact h''
    · next h =>
      split
      · next h2 =>
        refine chunkParasFold_bound M ps chunks (cur ++ [p]) hchunks
          (Or.inr (Or.inr ?_))
        have hle : ¬((joinSep nl2 cur).length + p.length > M) := fun hgt =>
          h ⟨hgt, h2⟩
        have hsum := sum_length_le_joinSep nl2 cur
        simp only [List.map_append, List.sum_append, List.map_cons,
          List.sum_cons, List.map_nil, List.sum_nil]
        omega
      · exact chunkParasFold_bound M ps chunks [p] hchunks
          (Or.inr (Or.inl rfl))

/-- C2 (amended): every chunk emitted by `chunk_text` is the blank-line join
of a group of consecutive paragraphs that either is a single paragraph
(emitted whole even when longer than the maximum) or whose paragraphs' total
length, not counting the two-character separators the chunker re-inserts
between them, is at most the maximum chunk size.  (The full chunk string may
exceed the maximum by the length of those separators.) -/
theorem chunk_text_bound (text : List Char) (M : Nat) (c : List Char)
    (hc : c ∈ chunk_text text M) :
    ∃ ps ∈ chunkParas (splitParas text) M, c = joinSep nl2 ps ∧
      (ps.length = 1 ∨ (ps.map List.length).sum ≤ M) := by
  rw [chunk_text_eq_map_joinSep] at hc
  obtain ⟨ps, hps, rfl⟩ := List.mem_map.mp hc
  exact ⟨ps, hps, rfl,
    chunkParasFold_bound M (splitParas text) [] [] (by simp) (Or.inl rfl)
      ps hps⟩

/-- C2 counterexample: with maximum chunk size 10, the two paragraphs
`"AAAAA"` (length 5 each) are accumulated into the single chunk
`"AAAAA\n\nAAAAA"` of length 12 > 10, which does not consist of a single
paragraph: the emitted chunk's full length exceeds the maximum because the
loop guard ignores the inserted separator. -/
theorem chunk_text_bound_counterexample :
    chunk_text (String.toList "AAAAA\n\nAAAAA") 10
        = [String.toList "AAAAA\n\nAAAAA"] ∧
    (String.toList "AAAAA\n\nAAAAA").length = 12 ∧
    splitParas (String.toList "AAAAA\n\nAAAAA")
        = [String.toList "AAAAA", String.toList "AAAAA"] ∧
    (String.toList "AAAAA").length ≤ 10 := by
  decide

/-- C2 witness: the chunk of the counterexample text satisfies the amended
bound (two paragraphs totalling 10 characters with maximum 10). -/
theorem chunk_text_bound_witness :
    String.toList "AAAAA\n\nAAAAA"
        ∈ chunk_text (String.toList "AAAAA\n\nAAAAA") 10 ∧
    ∃ ps ∈ chunkParas (splitParas (String.toList "AAAAA\n\nAAAAA")) 10,
      String.toList "AAAAA\n\nAAAAA" = joinSep nl2 ps ∧
      (ps.length = 1 ∨ (ps.map List.length).sum ≤ 10) :=
  ⟨by decide, chunk_text_bound _ 10 _ (by decide)⟩

/-- Embedding of `extract_text_from_pdf` (lines 13-20 of `main.py`): the
text of each page in order is appended to the accumulator, followed by the
blank-line separator.  A page is modelled by the text the PDF library
extracts from it; a page with no recoverable text contributes the empty
string (the loop never fails). -/
def extract_text_from_pdf (pages : List (List Char)) : List Char :=
  pages.foldl (fun text p => text ++ p ++ nl2) []

theorem extract_foldl_eq_flatten (pages : List (List Char)) :
    ∀ acc : List Char,
      pages.foldl (fun text p => text ++ p ++ nl2) acc
        = acc ++ (pages.map (fun p => p ++ nl2)).flatten := by
  induction pages with
  | nil => intro acc; simp
  | cons p ps ih =>
    intro acc
    rw [List.foldl_cons, ih]
    simp [List.append_assoc]

theorem flatten_map_eq_joinSep (sep : List Char) :
    ∀ pages : List (List Char), pages ≠ [] →
      (pages.map (fun p => p ++ sep)).flatten = joinSep sep pages ++ sep
  | [], h => absurd rfl h
  | [x], _ => by simp [joinSep_single]
  | x :: y :: t, _ => by
    have ih := flatten_map_eq_joinSep sep (y :: t) (by simp)
    simp only [List.map_cons, List.flatten_cons] at ih ⊢
    rw [ih, joinSep_cons_cons]
    simp [List.append_assoc]

/-- C5 (amended): the extractor returns the ordered concatenation of the
pages' texts, each page followed by one blank-line separator — equivalently,
for a document with at least one page, the pages joined by the separator
plus one trailing separator.  A page with no recoverable text contributes
the empty string (so just a separator), not an error. -/
theorem extract_text_concat (pages : List (List Char)) :
    extract_text_from_pdf pages = (pages.map (fun p => p ++ nl2)).flatten ∧
    (pages ≠ [] → extract_text_from_pdf pages = joinSep nl2 pages ++ nl2) := by
  constructor
  · rw [extract_text_from_pdf, extract_foldl_eq_flatten]
    simp
  · intro h
    rw [extract_text_from_pdf, extract_foldl_eq_flatten,
      flatten_map_eq_joinSep nl2 pages h]
    simp

/-- C5 counterexample: for a one-page document with page text `"A"`, the
extractor returns `"A\n\n"`, not the separator-between-pages concatenation
`"A"` the claim describes: the separator is also appended after the last
page. -/
theorem extract_text_concat_counterexample :
    extract_text_from_pdf [String.toList "A"] = String.toList "A\n\n" ∧
    extract_text_from_pdf [String.toList "A"] ≠ joinSep nl2 [String.toList "A"] := by
  decide

/-- C5 witness: a two-page document (second page with no recoverable text)
evaluates to the pages joined by the separator plus a trailing separator. -/
theorem extract_text_concat_witness :
    ([String.toList "A", []] : List (List Char)) ≠ [] ∧
    extract_text_from_pdf [String.toList "A", []]
      = joinSep nl2 [String.toList "A", []] ++ nl2 :=
  ⟨by decide, (extract_text_concat [String.toList "A", []]).2 (by decide)⟩

/-- Boolean test that the second list starts with the first. -/
def startsWith : List Char → List Char → Bool
  | [], _ => true
  | _ :: _, [] => false
  | p :: ps, c :: cs => p == c && startsWith ps cs

/-- The literal part of the rate-limit wait-hint pattern
`r"try again in (\d+\.\d+)s"` (line 83 of `main.py`). -/
def hintLit : List Char := String.toList "try again in "

/-- Numeric value of a digit run. -/
def digitsVal (ds : List Char) : Nat :=
  ds.foldl (fun n c => 10 * n + (c.toNat - 48)) 0

/-- Attempt to read `\d+\.\d+` immediately followed by `s` at the head of
the list, returning the decimal as (integer part, fractional part,
fractional digit count).  Because digits and `.` are disjoint character
classes, the regex engine's greedy matching coincides with maximal munch,
which is what this parser implements. -/
def parseHintNumber (l : List Char) : Option (Nat × Nat × Nat) :=
  let ds1 := l.takeWhile Char.isDigit
  let r1 := l.dropWhile Char.isDigit
  if ds1.isEmpty then none
  else
    match r1 with
    | '.' :: r2 =>
      let ds2 := r2.takeWhile Char.isDigit
      let r3 := r2.dropWhile Char.isDigit
      if ds2.isEmpty then none
      else
        match r3 with
        | 's' :: _ => some (digitsVal ds1, digitsVal ds2, ds2.length)
        | _ => none
    | _ => none

/-- Model of `re.search(r"try again in (\d+\.\d+)s", error_message)`
(line 83 of `main.py`): leftmost position at which the whole pattern
matches, scanning left to right. -/
def findWaitHint : List Char → Option (Nat × Nat × Nat)
  | [] => none
  | c :: rest =>
    if startsWith hintLit (c :: rest) then
      match parseHintNumber (List.drop 13 (c :: rest)) with
      | some q => some q
      | none => findWaitHint rest
    else findWaitHint rest

/-- The exact rational value of a matched decimal hint (the value Python's
`float` parses, taken exactly: the decimals that occur are exactly
representable and no rounding is observable in the claims). -/
def hintValue (h : Nat × Nat × Nat) : ℚ :=
  (h.1 : ℚ) + mkRat h.2.1 (10 ^ h.2.2)

/-- The wait chosen on a 429 response (lines 80-87 of `main.py`): the parsed
hint plus a one-second buffer when the pattern matches, a fixed 10 seconds
otherwise.  A missing or unparsable error payload is modelled by a body the
pattern does not match, which yields the same 10-second default. -/
def waitTime (error_message : List Char) : ℚ :=
  match findWaitHint error_message with
  | some n => hintValue n + 1
  | none => 10

/-- Parsing of a successful response (line 77 of `main.py`): the content as
a whole is stripped, then split on newlines.  Individual lines are not
stripped again. -/
def parsePhrases (content : List Char) : List (List Char) :=
  splitLines (pyStrip content)

/-- One response of the external service, as observed by the client: for a
200 response `body` is `choices[0].message.content`; for a 429 response it
is `error.message`; for any other status it is the response text. -/
structure ApiResponse where
  status : Nat
  body : List Char

/-- The retry loop of `get_key_phrases_for_chunk` (lines 69-99 of
`main.py`).  `responses` gives the response received on each attempt; the
returned pair is the phrase list together with the sequence of waits
performed (each `time.sleep` call, in order).  `fuel` counts the iterations
`range(retry_count)` still to run. -/
def phrasesLoop (responses : Nat → ApiResponse) (retry_count : Nat) :
    Nat → Nat → List ℚ → List (List Char) × List ℚ
  | 0, _, waits => ([], waits)
  | fuel + 1, attempt, waits =>
    let r := responses attempt
    if r.status = 200 then
      (parsePhrases r.body, waits)
    else if r.status = 429 then
      let waits2 := waits ++ [waitTime r.body]
      if attempt = retry_count - 1 then ([], waits2)
      else phrasesLoop responses retry_count fuel (attempt + 1) waits2
    else ([], waits)

/-- Embedding of `get_key_phrases_for_chunk` (lines 43-99 of `main.py`),
with the network modelled by the per-attempt response function. -/
def get_key_phrases_for_chunk (responses : Nat → ApiResponse)
    (retry_count : Nat) : List (List Char) × List ℚ :=
  phrasesLoop responses retry_count retry_count 0 []

/-- C6 (amended): on a successful (200) first response the client returns
one phrase per line of the whitespace-stripped response content, performing
no waits; joining the returned phrases with newlines reproduces the stripped
content exactly (so the lines are the content's lines verbatim — the client
does not strip each phrase individually). -/
theorem client_success_lines (responses : Nat → ApiResponse)
    (retry_count : Nat) (h : 0 < retry_count) (content : List Char)
    (h0 : responses 0 = ⟨200, content⟩) :
    get_key_phrases_for_chunk responses retry_count
        = (splitLines (pyStrip content), []) ∧
    joinSep ['\n'] (splitLines (pyStrip content)) = pyStrip content := by
  constructor
  · obtain ⟨n, rfl⟩ : ∃ n, retry_count = n + 1 := ⟨retry_count - 1, by omega⟩
    simp [get_key_phrases_for_chunk, phrasesLoop, h0, parsePhrases]
  · exact joinSep_splitLines _

/-- C6 counterexample: for response content `"a \nb"` the client returns
the phrase `"a "`, which still carries its trailing space: the phrases are
not individually trimmed, only the content as a whole is. -/
theorem client_success_lines_counterexample :
    get_key_phrases_for_chunk (fun _ => ⟨200, String.toList "a \nb"⟩) 3
        = ([['a', ' '], ['b']], []) ∧
    pyStrip ['a', ' '] ≠ ['a', ' '] := by
  decide

/-- C6 witness: a concrete two-line response evaluates as stated. -/
theorem client_success_lines_witness :
    get_key_phrases_for_chunk
        (fun _ => ⟨200, String.toList "phrase one\nphrase two"⟩) 3
      = (splitLines (pyStrip (String.toList "phrase one\nphrase two")), []) ∧
    joinSep ['\n'] (splitLines (pyStrip (String.toList "phrase one\nphrase two")))
      = pyStrip (String.toList "phrase one\nphrase two") :=
  client_success_lines _ 3 (by decide) _ rfl

/-- A run in which every attempt is rate-limited performs exactly one wait
per remaining attempt and ends with the empty phrase list. -/
theorem phrasesLoop_const429 (msg : List Char) (retry_count : Nat) :
    ∀ (fuel attempt : Nat) (waits : List ℚ),
      fuel + attempt = retry_count → 0 < fuel →
      phrasesLoop (fun _ => ⟨429, msg⟩) retry_count fuel attempt waits
        = ([], waits ++ List.replicate fuel (waitTime msg))
  | 0, _, _, _, hf => absurd hf (by omega)
  | fuel + 1, attempt, waits, hsum, _ => by
    by_cases hlast : attempt = retry_count - 1
    · have hfuel : fuel = 0 := by omega
      subst hfuel
      simp [phrasesLoop, hlast]
    · have hfuel : 0 < fuel := by omega
      have ih := phrasesLoop_const429 msg retry_count fuel (attempt + 1)
        (waits ++ [waitTime msg]) (by omega) hfuel
      simp [phrasesLoop, hlast, ih, List.replicate_succ]

/-- C3: when every attempt is answered 429, the client performs one wait per
attempt — the hinted duration plus a one-second buffer when the error
payload matches the wait-hint pattern, a fixed 10 seconds otherwise — and
after the configured number of attempts (default 3) returns the empty
phrase list normally; the hint "try again in 2.50s" yields a wait of
exactly 3.5 seconds. -/
theorem client_rate_limit_protocol (msg : List Char) (retry_count : Nat)
    (h : 0 < retry_count) :
    get_key_phrases_for_chunk (fun _ => ⟨429, msg⟩) retry_count
        = ([], List.replicate retry_count (waitTime msg)) ∧
    (∀ n, findWaitHint msg = some n → waitTime msg = hintValue n + 1) ∧
    (findWaitHint msg = none → waitTime msg = 10) ∧
    waitTime (String.toList "try again in 2.50s") = 7 / 2 ∧
    (7 / 2 : ℚ) ≥ 35 / 10 := by
  refine ⟨?_, ?_, ?_, ?_, by norm_num⟩
  · exact phrasesLoop_const429 msg retry_count retry_count 0 [] (by omega) h
  · intro n hn
    simp [waitTime, hn]
  · intro hn
    simp [waitTime, hn]
  · have hfind : findWaitHint (String.toList "try again in 2.50s")
        = some (2, 50, 2) := by decide
    simp only [waitTime, hfind]
    norm_num [hintValue, Rat.mkRat_eq_div]

/-- C3 witness: the concrete all-429 run with the documented hint and the
default three attempts. -/
theorem client_rate_limit_protocol_witness :
    get_key_phrases_for_chunk
        (fun _ => ⟨429, String.toList "try again in 2.50s"⟩) 3
      = ([], List.replicate 3 (waitTime (String.toList "try again in 2.50s"))) ∧
    (∀ n, findWaitHint (String.toList "try again in 2.50s") = some n →
      waitTime (String.toList "try again in 2.50s") = hintValue n + 1) ∧
    (findWaitHint (String.toList "try again in 2.50s") = none →
      waitTime (String.toList "try again in 2.50s") = 10) ∧
    waitTime (String.toList "try again in 2.50s") = 7 / 2 ∧
    (7 / 2 : ℚ) ≥ 35 / 10 :=
  client_rate_limit_protocol (String.toList "try again in 2.50s") 3 (by decide)

/-- The per-chunk loop of the Orchestrator (lines 191-206 of `main.py`):
`all_key_phrases` starts empty and is extended with every chunk's phrases
in order; every chunk is processed regardless of what earlier chunks
returned. -/
def processChunks (phrasesOf : List Char → List (List Char))
    (chunks : List (List Char)) : List (List Char) :=
  chunks.foldl (fun all ch => all ++ phrasesOf ch) []

theorem processChunks_foldl_eq_flatten
    (phrasesOf : List Char → List (List Char)) (chunks : List (List Char)) :
    ∀ acc, chunks.foldl (fun all ch => all ++ phrasesOf ch) acc
      = acc ++ (chunks.map phrasesOf).flatten := by
  induction chunks with
  | nil => intro acc; simp
  | cons c cs ih =>
    intro acc
    rw [List.foldl_cons, ih]
    simp [List.append_assoc]

theorem processChunks_eq_flatten (phrasesOf : List Char → List (List Char))
    (chunks : List (List Char)) :
    processChunks phrasesOf chunks = (chunks.map phrasesOf).flatten := by
  rw [processChunks, processChunks_foldl_eq_flatten]
  simp

/-- C8: on a first response that is neither 200 nor 429 the client returns
the empty phrase list immediately, performing no wait and no retry,
whatever the later responses would have been; and a chunk whose phrase
extraction came back empty contributes nothing while every other chunk is
still processed — the per-chunk loop never aborts. -/
theorem client_other_error (responses : Nat → ApiResponse) (retry_count : Nat)
    (h : 0 < retry_count) (h200 : (responses 0).status ≠ 200)
    (h429 : (responses 0).status ≠ 429) :
    get_key_phrases_for_chunk responses retry_count = ([], []) ∧
    ∀ (f : List Char → List (List Char)) (pre post : List (List Char))
      (ch : List Char), f ch = [] →
      processChunks f (pre ++ ch :: post)
        = processChunks f pre ++ processChunks f post := by
  constructor
  · obtain ⟨n, rfl⟩ : ∃ n, retry_count = n + 1 := ⟨retry_count - 1, by omega⟩
    simp [get_key_phrases_for_chunk, phrasesLoop, h200, h429]
  · intro f pre post ch hch
    simp [processChunks_eq_flatten, hch]

/-- C8 witness: a 500 response with concrete chunks around the failing
one. -/
theorem client_other_error_witness :
    get_key_phrases_for_chunk
        (fun _ => ⟨500, String.toList "Internal Server Error"⟩) 3 = ([], []) ∧
    processChunks
        (fun c => if c = String.toList "good" then [String.toList "finding"]
          else [])
        ([String.toList "good"] ++ String.toList "bad" :: [String.toList "good"])
      = processChunks
          (fun c => if c = String.toList "good" then [String.toList "finding"]
            else [])
          [String.toList "good"]
        ++ processChunks
          (fun c => if c = String.toList "good" then [String.toList "finding"]
            else [])
          [String.toList "good"] :=
  ⟨(client_other_error _ 3 (by decide) (by decide) (by decide)).1,
    (client_other_error (fun _ => ⟨500, String.toList "Internal Server Error"⟩)
        3 (by decide) (by decide) (by decide)).2
      _ _ _ _ (by decide)⟩

/-- A located occurrence on a page: the bounding rectangle returned by the
text-layout search, as four coordinates. -/
structure HRect where
  x0 : ℚ
  y0 : ℚ
  x1 : ℚ
  y1 : ℚ
  deriving DecidableEq

/-- A highlight mark attached to a page: bounding rectangle plus the stroke
color set on it. -/
structure Highlight where
  rect : HRect
  stroke : ℚ × ℚ × ℚ
  deriving DecidableEq

/-- A page as the highlighter sees it: the queryable text-layout search
(`page.search_for`, returning the bounding rectangles of the verbatim
occurrences of a phrase in layout order) and the highlight marks attached
so far.  Attaching a mark never changes the search index. -/
structure PdfPage where
  searchFor : List Char → List HRect
  annots : List Highlight

/-- The yellow highlight mark placed on one located occurrence
(`set_colors({"stroke": (1,1,0)})`, line 124 of `main.py`). -/
def yellowMark (inst : HRect) : Highlight :=
  { rect := inst, stroke := (1, 1, 0) }

/-- Model of `page.add_highlight_annot` with `set_colors` and `update`
(lines 123-125 of `main.py`). -/
def addHighlight (pg : PdfPage) (inst : HRect) : PdfPage :=
  { pg with annots := pg.annots ++ [yellowMark inst] }

/-- The per-page phrase loop of `highlight_pdf` (lines 117-125 of
`main.py`): strip the phrase, skip it unless its length is greater than 5,
otherwise add one highlight per search result. -/
def highlightPage (pg : PdfPage) (key_phrases : List (List Char)) : PdfPage :=
  key_phrases.foldl
    (fun pg0 phrase =>
      let p := pyStrip phrase
      if p.length > 5 then (pg0.searchFor p).foldl addHighlight pg0
      else pg0)
    pg

/-- Embedding of `highlight_pdf` (lines 101-141 of `main.py`): every page is
processed with the full phrase list; opening and re-serializing the document
through the PDF library is modelled as the identity on this structure. -/
def highlight_pdf (doc : List PdfPage) (key_phrases : List (List Char)) :
    List PdfPage :=
  doc.map (fun pg => highlightPage pg key_phrases)

/-- The highlight marks a single phrase contributes on a page: none when the
stripped phrase is five characters or shorter, one yellow mark per located
occurrence otherwise. -/
def phraseHighlights (pg : PdfPage) (phrase : List Char) : List Highlight :=
  if (pyStrip phrase).length > 5 then
    (pg.searchFor (pyStrip phrase)).map yellowMark
  else []

theorem phraseHighlights_set_annots (pg : PdfPage) (a : List Highlight) :
    phraseHighlights { pg with annots := a } = phraseHighlights pg := rfl

theorem foldl_addHighlight (insts : List HRect) :
    ∀ pg : PdfPage,
      insts.foldl addHighlight pg
        = { pg with annots :=
            pg.annots ++ insts.map yellowMark } := by
  induction insts with
  | nil => intro pg; simp
  | cons i is ih =>
    intro pg
    rw [List.foldl_cons, ih]
    simp [addHighlight, List.append_assoc]

theorem highlightPage_cons (pg : PdfPage) (p : List Char)
    (ps : List (List Char)) :
    highlightPage pg (p :: ps)
      = highlightPage
          (if (pyStrip p).length > 5
            then (pg.searchFor (pyStrip p)).foldl addHighlight pg
            else pg) ps := by
  rw [highlightPage, List.foldl_cons]
  rfl

theorem highlightPage_characterization (key_phrases : List (List Char)) :
    ∀ pg : PdfPage,
      highlightPage pg key_phrases
        = { pg with annots :=
            pg.annots ++ (key_phrases.map (phraseHighlights pg)).flatten } := by
  induction key_phrases with
  | nil => intro pg; simp [highlightPage]
  | cons p ps ih =>
    intro pg
    rw [highlightPage_cons]
    by_cases hp : (pyStrip p).length > 5
    · rw [if_pos hp, foldl_addHighlight, ih]
      simp [phraseHighlights_set_annots, phraseHighlights, hp,
        List.append_assoc]
    · rw [if_neg hp, ih]
      simp [phraseHighlights, hp]

/-- C7: the highlighter adds to each page exactly the per-phrase marks in
phrase order; a phrase whose stripped length is below the six-character
minimum contributes no marks on any page, and a phrase at or above it
contributes one yellow mark per occurrence located by that page's
text-layout search. -/
theorem highlighter_min_length (doc : List PdfPage)
    (key_phrases : List (List Char)) :
    highlight_pdf doc key_phrases
      = doc.map (fun pg =>
          { pg with annots :=
              pg.annots ++ (key_phrases.map (phraseHighlights pg)).flatten }) ∧
    (∀ (pg : PdfPage) (phrase : List Char),
      (pyStrip phrase).length < 6 → phraseHighlights pg phrase = []) ∧
    (∀ (pg : PdfPage) (phrase : List Char),
      6 ≤ (pyStrip phrase).length →
      phraseHighlights pg phrase
        = (pg.searchFor (pyStrip phrase)).map yellowMark) := by
  refine ⟨?_, ?_, ?_⟩
  · rw [highlight_pdf]
    have : (fun pg => highlightPage pg key_phrases)
        = fun pg : PdfPage =>
            { pg with annots :=
                pg.annots ++ (key_phrases.map (phraseHighlights pg)).flatten } :=
      funext (fun pg => highlightPage_characterization key_phrases pg)
    rw [this]
  · intro pg phrase h
    rw [phraseHighlights, if_neg (by omega)]
  · intro pg phrase h
    rw [phraseHighlights, if_pos (by omega)]

/-- A concrete page whose layout search finds one occurrence of the phrase
`"important sentence"` and nothing else. -/
def samplePage : PdfPage :=
  { searchFor := fun p =>
      if p = String.toList "important sentence" then [⟨0, 0, 1, 1⟩] else []
  , annots := [] }

/-- C7 witness: on a concrete page, a short phrase contributes no marks and
a long one contributes one mark per located occurrence. -/
theorem highlighter_min_length_witness :
    (pyStrip (String.toList " tiny ")).length < 6 ∧
    phraseHighlights samplePage (String.toList " tiny ") = [] ∧
    6 ≤ (pyStrip (String.toList "important sentence")).length ∧
    phraseHighlights samplePage (String.toList "important sentence")
      = (samplePage.searchFor (pyStrip (String.toList "important sentence"))).map
          yellowMark :=
  ⟨by decide,
    (highlighter_min_length [samplePage] [String.toList " tiny "]).2.1
      samplePage (String.toList " tiny ") (by decide),
    by decide,
    (highlighter_min_length [samplePage] [String.toList "important sentence"]).2.2
      samplePage (String.toList "important sentence") (by decide)⟩

/-- C4: a document with no pages extracts to the empty text, which yields
zero chunks, hence zero accumulated phrases, and the highlighter applied to
an empty phrase list leaves every page of the document unchanged — the
pipeline completes trivially with the document unmodified (the open/save
round trip through the PDF library being modelled as the identity). -/
theorem empty_document_pipeline (doc : List PdfPage) (M : Nat)
    (f : List Char → List (List Char)) :
    extract_text_from_pdf [] = [] ∧
    chunk_text (extract_text_from_pdf []) M = [] ∧
    processChunks f (chunk_text (extract_text_from_pdf []) M) = [] ∧
    highlight_pdf doc (processChunks f (chunk_text (extract_text_from_pdf []) M))
      = doc := by
  have h1 : extract_text_from_pdf [] = [] := rfl
  have h2 : chunk_text ([] : List Char) M = [] := by
    simp [chunk_text, splitParas, chunkStep, finalizeChunks]
  have h3 : processChunks f [] = [] := rfl
  refine ⟨h1, by rw [h1, h2], by rw [h1, h2, h3], ?_⟩
  rw [h1, h2, h3]
  simp [highlight_pdf, highlightPage]

/-- The large-document confirmation gate of `main` (lines 180-185 of
`main.py`): `proceed` is the button state only when there are more than 10
chunks, and `True` otherwise. -/
def proceedGate (numChunks : Nat) (buttonClicked : Bool) : Bool :=
  if numChunks > 10 then buttonClicked else true

/-- The gated tail of `main` (lines 185-210 of `main.py`): per-chunk
processing and highlighting run only when the gate is open; `none` models
the run that stops before the per-chunk loop, waiting for the go-ahead. -/
def runPipeline (doc : List PdfPage) (chunks : List (List Char))
    (phrasesOf : List Char → List (List Char)) (buttonClicked : Bool) :
    Option (List PdfPage) :=
  if proceedGate chunks.length buttonClicked then
    some (highlight_pdf doc (processChunks phrasesOf chunks))
  else none

/-- C9: with more than 10 chunks and no go-ahead signal, the orchestrator
performs no per-chunk processing; with more than 10 chunks and the
go-ahead, or with at most 10 chunks unconditionally, it processes every
chunk and highlights the document. -/
theorem orchestrator_gate (doc : List PdfPage) (chunks : List (List Char))
    (phrasesOf : List Char → List (List Char)) (buttonClicked : Bool) :
    (chunks.length > 10 → buttonClicked = false →
      runPipeline doc chunks phrasesOf buttonClicked = none) ∧
    (chunks.length > 10 → buttonClicked = true →
      runPipeline doc chunks phrasesOf buttonClicked
        = some (highlight_pdf doc (processChunks phrasesOf chunks))) ∧
    (chunks.length ≤ 10 →
      runPipeline doc chunks phrasesOf buttonClicked
        = some (highlight_pdf doc (processChunks phrasesOf chunks))) := by
  refine ⟨?_, ?_, ?_⟩
  · intro h1 h2
    simp [runPipeline, proceedGate, h1, h2]
  · intro h1 h2
    simp [runPipeline, proceedGate, h1, h2]
  · intro h1
    simp [runPipeline, proceedGate, Nat.not_lt.mpr h1]

/-- C9 witness: twelve chunks with no go-ahead produce no processing at
all. -/
theorem orchestrator_gate_witness :
    runPipeline [] (List.replicate 12 (String.toList "x")) (fun _ => []) false
      = none :=
  (orchestrator_gate [] (List.replicate 12 (String.toList "x"))
      (fun _ => []) false).1 (by decide) rfl
